import Mathlib

/-
  Verification of the BokslQuant strategy-simulation and metrics engine.

  Shallow embedding of the core components:
  * `LumpSumStrategy.execute` / `DollarCostAverageStrategy.execute`
    (src/src/analysis_types/lump_sum_vs_dca/strategies/lump_sum_strategy.py,
     src/backtests/lump_sum_vs_dca/src/strategies/dca_strategy.py) together
    with the mutable `BaseStrategy.add_trade` state, made explicit;
  * `Backtester.calculate_daily_returns` (src/src/backtester.py) — the daily
    valuation walk with cumulative peak return and drawdown;
  * `PerformanceAnalyzer` metric reductions (src/src/analyzer.py);
  * the probabilistic sweep of `ProbabilisticBacktester`
    (src/src/strategies/probabilistic_analysis.py).

  Python floats are modelled as exact rationals (ℚ); Python float `**` (used
  only by the CAGR computation) is kept as an abstract function parameter,
  and `math.sqrt`-like operations (pandas `.std`, `np.sqrt`) are likewise
  abstracted by a function parameter constrained by the properties the
  proofs need.  Division by zero follows Lean's `ℚ` convention (x / 0 = 0);
  places where IEEE behaviour (inf/NaN) differs are called out in comments.
-/

/-- Calendar date, compared lexicographically like Python `datetime.date`. -/
structure Date where
  year : ℕ
  month : ℕ
  day : ℕ
deriving DecidableEq, Repr

/-- Strict lexicographic order on dates (Python `date` comparison). -/
def Date.lt (a b : Date) : Prop :=
  a.year < b.year ∨ (a.year = b.year ∧
    (a.month < b.month ∨ (a.month = b.month ∧ a.day < b.day)))

/-- Non-strict date order. -/
def Date.le (a b : Date) : Prop :=
  Date.lt a b ∨ a = b

instance Date.decLt (a b : Date) : Decidable (Date.lt a b) := by
  unfold Date.lt
  infer_instance

instance Date.decLe (a b : Date) : Decidable (Date.le a b) := by
  unfold Date.le
  infer_instance

/-- One row of the daily price series.  Only `Date` and `Close` are read by
    the embedded components (the strategies buy and value at `Close`); the
    other OHLCV columns are never consulted by them. -/
structure PriceRow where
  date : Date
  close : ℚ
deriving DecidableEq, Repr

/-- A trade record as appended by `BaseStrategy.add_trade`. -/
structure Trade where
  date : Date
  price : ℚ
  amount : ℚ
  shares : ℚ
deriving DecidableEq, Repr

/-- The mutable state of a `BaseStrategy` instance (`self.trades` and
    `self.portfolio`), made explicit. -/
structure StrategyState where
  trades : List Trade
  total_invested : ℚ
  total_shares : ℚ
  average_price : ℚ
deriving DecidableEq, Repr

/-- The state set up by `BaseStrategy.__init__`. -/
def initState : StrategyState :=
  { trades := [], total_invested := 0, total_shares := 0, average_price := 0 }

/-- `BaseStrategy.add_trade`: append the trade and update the running
    portfolio totals (src/src/lump_sum_vs_dca/strategies/base_strategy.py). -/
def add_trade (st : StrategyState) (t : Trade) : StrategyState :=
  let invested := st.total_invested + t.amount
  let shares := st.total_shares + t.shares
  { trades := st.trades ++ [t],
    total_invested := invested,
    total_shares := shares,
    average_price := if 0 < shares then invested / shares else st.average_price }

/-- The analysis parameters of `LumpSumVsDcaConfig`
    (src/src/lump_sum_vs_dca/config.py); directory/IO fields omitted. -/
structure LumpSumVsDcaConfig where
  initial_capital : ℚ
  start_year : ℕ
  start_month : ℕ
  investment_period_years : ℕ
  dca_months : ℕ
deriving Repr

/-- `LumpSumVsDcaConfig.get_dca_monthly_amount`: `initial_capital / dca_months`. -/
def LumpSumVsDcaConfig.get_dca_monthly_amount (c : LumpSumVsDcaConfig) : ℚ :=
  c.initial_capital / (c.dca_months : ℚ)

/-- The year/month membership test used by both strategies
    (`data['year'] == y & data['month'] == m`). -/
def inYearMonth (y m : ℕ) (r : PriceRow) : Bool :=
  decide (r.date.year = y) && decide (r.date.month = m)

/-- The single error the strategies can raise
    (`ValueError` when the start month has no data; the spec's
    `NoDataForStartPeriod`). -/
inductive StrategyError where
  | noDataForStartPeriod
deriving DecidableEq, Repr

/-- `LumpSumStrategy.execute`
    (src/src/analysis_types/lump_sum_vs_dca/strategies/lump_sum_strategy.py):
    filter the series to the configured start year/month; raise when the
    filter is empty; otherwise `add_trade` the full `initial_capital` at the
    first filtered row's close. -/
def LumpSumStrategy.execute (cfg : LumpSumVsDcaConfig) (data : List PriceRow)
    (st : StrategyState) : Except StrategyError StrategyState :=
  match data.filter (inYearMonth cfg.start_year cfg.start_month) with
  | [] => .error .noDataForStartPeriod
  | r :: _ =>
      .ok (add_trade st
        { date := r.date, price := r.close, amount := cfg.initial_capital,
          shares := cfg.initial_capital / r.close })

/-- The month-rollover step of the DCA loop
    (`current_month += 1; if current_month > 12: month = 1; year += 1`). -/
def nextYM (y m : ℕ) : ℕ × ℕ :=
  if 12 < m + 1 then (y + 1, 1) else (y, m + 1)

/-- The target year/month of installment `i` (start month stepped `i` times). -/
def ymAt (y m : ℕ) : ℕ → ℕ × ℕ
  | 0 => (y, m)
  | i + 1 => ymAt (nextYM y m).1 (nextYM y m).2 i

/-- The loop body of `DollarCostAverageStrategy.execute`
    (src/backtests/lump_sum_vs_dca/src/strategies/dca_strategy.py):
    for each remaining installment, trade `monthly` at the first row of the
    current target month when one exists, silently skip otherwise, then
    advance one month. -/
def DollarCostAverageStrategy.executeAux (monthly : ℚ) (data : List PriceRow) :
    ℕ → ℕ → ℕ → StrategyState → StrategyState
  | 0, _, _, st => st
  | n + 1, y, m, st =>
      let st2 :=
        match data.filter (inYearMonth y m) with
        | [] => st
        | r :: _ =>
            add_trade st
              { date := r.date, price := r.close, amount := monthly,
                shares := monthly / r.close }
      DollarCostAverageStrategy.executeAux monthly data n
        (nextYM y m).1 (nextYM y m).2 st2

/-- `DollarCostAverageStrategy.execute`: run the installment loop for
    `dca_months` months starting at the configured start month. -/
def DollarCostAverageStrategy.execute (cfg : LumpSumVsDcaConfig)
    (data : List PriceRow) (st : StrategyState) : StrategyState :=
  DollarCostAverageStrategy.executeAux cfg.get_dca_monthly_amount data
    cfg.dca_months cfg.start_year cfg.start_month st

/-- The trade (if any) that installment month `ym` produces: the first row of
    that month at amount `monthly`, or `none` when the month has no row. -/
def dcaTradeAt (monthly : ℚ) (data : List PriceRow) (ym : ℕ × ℕ) : Option Trade :=
  match data.filter (inYearMonth ym.1 ym.2) with
  | [] => none
  | r :: _ =>
      some { date := r.date, price := r.close, amount := monthly,
             shares := monthly / r.close }

/-- Closed form of the DCA trade ledger: one optional trade per installment
    index, skipped months dropped. -/
def dcaLedger (cfg : LumpSumVsDcaConfig) (data : List PriceRow) : List Trade :=
  (List.range cfg.dca_months).filterMap
    (fun i => dcaTradeAt cfg.get_dca_monthly_amount data
      (ymAt cfg.start_year cfg.start_month i))

/-- One row of the first pass of `Backtester.calculate_daily_returns`
    (src/src/backtester.py, the `results.append` dict). -/
structure ValRow where
  date : Date
  price : ℚ
  invested_amount : ℚ
  shares : ℚ
  average_price : ℚ
  current_value : ℚ
  total_return : ℚ
  daily_return : ℚ
deriving DecidableEq, Repr

/-- A valuation row extended with the second-pass columns
    `peak_return` and `drawdown`. -/
structure FullRow extends ValRow where
  peak_return : ℚ
  drawdown : ℚ
deriving DecidableEq, Repr

/-- The `trade_schedule` date lookup: the code fills a dict keyed by trade
    date (later trades overwrite earlier ones on a duplicate date), so lookup
    returns the last trade carrying the date. -/
def tradeOn (trades : List Trade) (d : Date) : Option Trade :=
  (trades.filter (fun t => decide (t.date = d))).getLast?

/-- `get_investment_period_data`: restrict the series to
    `[ (start_year, start_month, 1), (start_year + years, start_month, 1) )`. -/
def get_investment_period_data (cfg : LumpSumVsDcaConfig)
    (data : List PriceRow) : List PriceRow :=
  data.filter (fun r =>
    decide (Date.le { year := cfg.start_year, month := cfg.start_month, day := 1 } r.date)
      && decide (Date.lt r.date
        { year := cfg.start_year + cfg.investment_period_years,
          month := cfg.start_month, day := 1 }))

/-- First pass of `calculate_daily_returns`: walk the restricted series in
    order, folding matching trades into the cumulative invested amount and
    share count, and valuing the holdings at each close.  Note `ℚ` division
    by zero yields 0 where Python floats would yield inf/NaN; the guarded
    branch (`cumulative_shares > 0`) is reproduced exactly. -/
def valuationRowsAux (trades : List Trade) (ci cs : ℚ) :
    List PriceRow → List ValRow
  | [] => []
  | r :: rs =>
      let acc : ℚ × ℚ :=
        match tradeOn trades r.date with
        | some t => (ci + t.amount, cs + t.shares)
        | none => (ci, cs)
      let row : ValRow :=
        if 0 < acc.2 then
          { date := r.date, price := r.close, invested_amount := acc.1,
            shares := acc.2, average_price := acc.1 / acc.2,
            current_value := acc.2 * r.close,
            total_return := (acc.2 * r.close - acc.1) / acc.1,
            daily_return := (r.close - acc.1 / acc.2) / (acc.1 / acc.2) }
        else
          { date := r.date, price := r.close, invested_amount := acc.1,
            shares := acc.2, average_price := 0, current_value := 0,
            total_return := 0, daily_return := 0 }
      row :: valuationRowsAux trades acc.1 acc.2 rs

/-- The exact drawdown branch of `calculate_daily_returns`:
    `(tr − peak) / (1 + peak)` when `peak > 0`, else `tr − peak`. -/
def drawdownOf (tr pk : ℚ) : ℚ :=
  if 0 < pk then (tr - pk) / (1 + pk) else tr - pk

/-- Second pass of `calculate_daily_returns`: the pandas
    `cummax`/`apply` step, carrying the running maximum of `total_return`
    and attaching the drawdown column. -/
def addDrawdownAux (pk : ℚ) : List ValRow → List FullRow
  | [] => []
  | v :: vs =>
      let pk2 := max pk v.total_return
      { toValRow := v, peak_return := pk2,
        drawdown := drawdownOf v.total_return pk2 } :: addDrawdownAux pk2 vs

/-- `Backtester.calculate_daily_returns` (src/src/backtester.py): restrict
    the series to the investment window, fold the trade ledger through it,
    then attach `peak_return = cummax(total_return)` and the drawdown
    column. -/
def calculate_daily_returns (cfg : LumpSumVsDcaConfig) (trades : List Trade)
    (data : List PriceRow) : List FullRow :=
  match valuationRowsAux trades 0 0 (get_investment_period_data cfg data) with
  | [] => []
  | v :: vs => addDrawdownAux v.total_return (v :: vs)

/-- Minimum of a column, as pandas `.min()` computes it on a non-empty
    series (0 on the empty series only to totalise the function; the empty
    case is guarded before every use below). -/
def listMin : List ℚ → ℚ
  | [] => 0
  | x :: xs => xs.foldl min x

/-- `PerformanceAnalyzer._calculate_mdd` (src/src/analyzer.py) on a record
    sequence carrying the backtester's `drawdown` column: 0 on an empty
    frame, otherwise `abs(drawdown.min())`.  (The code's fallback branch for
    a frame without a `drawdown` column cannot arise in this typed model.) -/
def PerformanceAnalyzer.calculate_mdd (recs : List FullRow) : ℚ :=
  match recs with
  | [] => 0
  | _ => |listMin (recs.map (fun r => r.drawdown))|

/-- Consecutive differences: pandas `.diff().dropna()` on a column. -/
def diffs : List ℚ → List ℚ
  | [] => []
  | [_] => []
  | x :: y :: t => (y - x) :: diffs (y :: t)

/-- Arithmetic mean of a list (pandas `.mean()`). -/
def listMean (xs : List ℚ) : ℚ := xs.sum / (xs.length : ℚ)

/-- Sample variance with `ddof = 1`, the square of pandas `.std()`.
    With a single observation pandas yields NaN; under the `ℚ` zero-division
    convention this definition yields 0 there instead (see the comments on
    the volatility/Sharpe theorems). -/
def sampleVar (xs : List ℚ) : ℚ :=
  ((xs.map (fun x => (x - listMean xs) ^ 2)).sum) / ((xs.length : ℚ) - 1)

/-- `PerformanceAnalyzer._calculate_volatility` (src/src/analyzer.py).
    `sqrtQ` abstracts the square root taken by pandas `.std()` and
    `np.sqrt`; `sqrtQ (sampleVar d)` stands for `d.std()` and
    `sqrtQ (1461/4)` for `np.sqrt(365.25)`. -/
def PerformanceAnalyzer.calculate_volatility (sqrtQ : ℚ → ℚ)
    (recs : List FullRow) : ℚ :=
  if recs.length < 2 then 0
  else
    let d := diffs (recs.map (fun r => r.total_return))
    if d = [] then 0
    else sqrtQ (sampleVar d) * sqrtQ (1461 / 4)

/-- `PerformanceAnalyzer._calculate_sharpe_ratio` (src/src/analyzer.py):
    daily portfolio returns are the first difference of `total_return`;
    guard `std == 0` returns 0; otherwise
    `(mean·365.25 − 0.02) / (std·sqrt(365.25))`. -/
def PerformanceAnalyzer.calculate_sharpe (sqrtQ : ℚ → ℚ)
    (recs : List FullRow) : ℚ :=
  if recs.length < 2 then 0
  else
    let d := diffs (recs.map (fun r => r.total_return))
    if d = [] ∨ sqrtQ (sampleVar d) = 0 then 0
    else (listMean d * (1461 / 4) - 1 / 50) / (sqrtQ (sampleVar d) * sqrtQ (1461 / 4))

/-- The CAGR computation of `PerformanceAnalyzer.calculate_metrics`
    (src/src/analyzer.py lines 29-32; `run_single_backtest_silent` in
    src/src/lump_sum_vs_dca/run_rolling_batch.py repeats it verbatim):
    `years = days / 365.25`, then
    `(final_value / total_invested) ** (1/years) - 1 if years > 0 else 0`.
    `fpow` abstracts Python float `**`; note the guard tests only `years`,
    never `total_invested`. -/
def PerformanceAnalyzer.calculate_cagr (fpow : ℚ → ℚ → ℚ)
    (final_value total_invested : ℚ) (days : ℕ) : ℚ :=
  let years : ℚ := (days : ℚ) / (1461 / 4)
  if 0 < years then fpow (final_value / total_invested) (1 / years) - 1 else 0

/-- A stand-in for Python float `**` used to exhibit concrete inputs of the
    abstracted CAGR computation. -/
def fpowTwo (_ _ : ℚ) : ℚ := 2

/-- Winner label of a strategy comparison. -/
inductive Winner where
  | lumpSum
  | dca
deriving DecidableEq, Repr

/-- The winner assignment of `ProbabilisticBacktester.run_single_scenario`
    (src/src/strategies/probabilistic_analysis.py line 126):
    `"일시투자" if lump_sum > dca else "적립식투자"`. -/
def scenarioWinner (lumpReturn dcaReturn : ℚ) : Winner :=
  if dcaReturn < lumpReturn then .lumpSum else .dca

/-- The per-metric winner of `PerformanceAnalyzer.compare_strategies`
    (src/src/analyzer.py lines 170-173): for lower-is-better metrics
    (`mdd`, `volatility`) `'dca' if dca < lump else 'lump_sum'`, otherwise
    `'lump_sum' if lump > dca else 'dca'`. -/
def PerformanceAnalyzer.better_strategy (lowerIsBetter : Bool)
    (lumpValue dcaValue : ℚ) : Winner :=
  if lowerIsBetter then (if dcaValue < lumpValue then .dca else .lumpSum)
  else (if dcaValue < lumpValue then .lumpSum else .dca)

/-- The return-comparison winner of `ComparisonAnalyzer.compare_strategies`
    (src/src/analysis/metrics.py: `'lump_sum' if ls_return > dca_return
    else 'dca'`). -/
def ComparisonAnalyzer.better_strategy (lsReturn dcaReturn : ℚ) : Winner :=
  if dcaReturn < lsReturn then .lumpSum else .dca

/-- The sweep parameters of `ScenarioConfig`
    (src/src/strategies/probabilistic_analysis.py).  `total_amount` and
    `investment_period_months` feed only the per-scenario metric payload,
    which the sweep-level claims do not inspect. -/
structure ScenarioConfig where
  total_amount : ℚ
  investment_period_months : ℕ
  analysis_period_years : ℕ
  start_year : ℕ
  start_month : ℕ
  end_year : ℕ
  end_month : ℕ
deriving Repr

/-- The `while current_date < end_limit` loop of
    `ProbabilisticBacktester.generate_scenarios`: emit
    `(current, current + analysis_period_years)` and step one month.  The
    first argument is a structural-recursion budget: for `datetime`-valid
    month values (1-12) each step raises `y * 12 + m` by exactly one, so a
    budget of `ey * 12 + em` can never be exhausted before the loop guard
    stops the recursion. -/
def genScenariosAux (ay ey em : ℕ) : ℕ → ℕ → ℕ → List (Date × Date)
  | 0, _, _ => []
  | fuel + 1, y, m =>
      if y * 12 + m < ey * 12 + em then
        ({ year := y, month := m, day := 1 },
         { year := y + ay, month := m, day := 1 }) ::
          genScenariosAux ay ey em fuel (nextYM y m).1 (nextYM y m).2
      else []

/-- `ProbabilisticBacktester.generate_scenarios`. -/
def ProbabilisticBacktester.generate_scenarios (cfg : ScenarioConfig) :
    List (Date × Date) :=
  genScenariosAux cfg.analysis_period_years cfg.end_year cfg.end_month
    (cfg.end_year * 12 + cfg.end_month) cfg.start_year cfg.start_month

/-- The date-mask slice of `run_single_scenario`:
    `(index >= start) & (index <= end)` — both ends inclusive. -/
def sliceScenario (data : List PriceRow) (s e : Date) : List PriceRow :=
  data.filter (fun r => decide (Date.le s r.date) && decide (Date.le r.date e))

/-- The per-scenario failure of the sweep (`ValueError("데이터 부족 …")`,
    the spec's `InsufficientData`). -/
inductive ScenarioError where
  | insufficientData
deriving DecidableEq, Repr

/-- The gating step of `ProbabilisticBacktester.run_single_scenario`
    (src/src/strategies/probabilistic_analysis.py lines 112-117): slice the
    series to the scenario window and raise when fewer than 120 trading days
    remain.  The success payload is the validated window that the subsequent
    metric computations consume; the sweep-level claims inspect only
    success/failure, never the metric payload. -/
def ProbabilisticBacktester.run_single_scenario (data : List PriceRow)
    (s e : Date) : Except ScenarioError (List PriceRow) :=
  let sd := sliceScenario data s e
  if sd.length < 120 then .error .insufficientData else .ok sd

/-- The scenario loop of `ProbabilisticBacktester.run_all_scenarios`:
    each success is collected, each failure only increments the failed
    counter, and the loop always proceeds to the next scenario. -/
def runAllScenariosAux (data : List PriceRow) :
    List (Date × Date) → List (List PriceRow) × ℕ
  | [] => ([], 0)
  | se :: rest =>
      let step :
          Except ScenarioError (List PriceRow) →
            List (List PriceRow) × ℕ → List (List PriceRow) × ℕ :=
        fun r acc =>
          match r with
          | .ok x => (x :: acc.1, acc.2)
          | .error _ => (acc.1, acc.2 + 1)
      step (ProbabilisticBacktester.run_single_scenario data se.1 se.2)
        (runAllScenariosAux data rest)

/-- `ProbabilisticBacktester.run_all_scenarios`
    (src/src/strategies/probabilistic_analysis.py lines 290-315): run every
    generated scenario, collecting successes in order and surfacing the
    count of failed scenarios. -/
def ProbabilisticBacktester.run_all_scenarios (cfg : ScenarioConfig)
    (data : List PriceRow) : List (List PriceRow) × ℕ :=
  runAllScenariosAux data (ProbabilisticBacktester.generate_scenarios cfg)

/-! ### General helper lemmas -/

theorem Date.le_refl (d : Date) : Date.le d d := Or.inr rfl

/-- The head of a filtered, strictly date-sorted series is a member
    satisfying the predicate whose date is minimal among all matching
    rows. -/
theorem head_filter_min (p : PriceRow → Bool) (data : List PriceRow)
    (hs : List.Pairwise (fun a b => Date.lt a.date b.date) data)
    (r : PriceRow) (h : (data.filter p).head? = some r) :
    r ∈ data ∧ p r = true ∧
      ∀ q ∈ data, p q = true → Date.le r.date q.date := by
  have hpw : List.Pairwise (fun a b => Date.lt a.date b.date) (data.filter p) :=
    hs.sublist (List.filter_sublist data)
  obtain ⟨rest, hrest⟩ : ∃ t, data.filter p = r :: t := by
    cases hf : data.filter p with
    | nil => rw [hf] at h; simp at h
    | cons x xs =>
        rw [hf] at h
        simp only [List.head?_cons, Option.some.injEq] at h
        exact ⟨xs, by rw [h]⟩
  have hrmem : r ∈ data.filter p := by rw [hrest]; exact List.mem_cons_self r rest
  have hr := List.mem_filter.mp hrmem
  refine ⟨hr.1, hr.2, ?_⟩
  intro q hq hpq
  have hqf : q ∈ data.filter p := List.mem_filter.mpr ⟨hq, hpq⟩
  rw [hrest] at hqf hpw
  rcases List.mem_cons.mp hqf with hqr | hqrest
  · rw [hqr]
    exact Date.le_refl r.date
  · exact Or.inl ((List.pairwise_cons.mp hpw).1 q hqrest)

/-- `add_trade` only appends to the ledger. -/
theorem add_trade_trades (st : StrategyState) (t : Trade) :
    (add_trade st t).trades = st.trades ++ [t] := rfl

/-- Unfolding of the DCA installment loop: the final ledger is the incoming
    ledger followed by one optional trade per installment index. -/
theorem dcaAux_trades (monthly : ℚ) (data : List PriceRow) :
    ∀ (n y m : ℕ) (st : StrategyState),
      (DollarCostAverageStrategy.executeAux monthly data n y m st).trades =
        st.trades ++ (List.range n).filterMap
          (fun i => dcaTradeAt monthly data (ymAt y m i)) := by
  intro n
  induction n with
  | zero =>
      intro y m st
      simp [DollarCostAverageStrategy.executeAux]
  | succ k ih =>
      intro y m st
      rw [List.range_succ_eq_map, List.filterMap_cons, List.filterMap_map]
      have hy : ∀ i : ℕ, ymAt y m (Nat.succ i) = ymAt (nextYM y m).1 (nextYM y m).2 i :=
        fun i => rfl
      cases hf : data.filter (inYearMonth y m) with
      | nil =>
          have h0 : dcaTradeAt monthly data (ymAt y m 0) = none := by
            simp [dcaTradeAt, ymAt, hf]
          rw [h0]
          simp only [DollarCostAverageStrategy.executeAux, hf]
          rw [ih (nextYM y m).1 (nextYM y m).2 st]
          rfl
      | cons r rest =>
          have h0 : dcaTradeAt monthly data (ymAt y m 0) =
              some { date := r.date, price := r.close, amount := monthly,
                     shares := monthly / r.close } := by
            simp [dcaTradeAt, ymAt, hf]
          rw [h0]
          simp only [DollarCostAverageStrategy.executeAux, hf]
          rw [ih (nextYM y m).1 (nextYM y m).2]
          rw [add_trade_trades, List.append_assoc]
          rfl

/-! ### C3 — lump-sum contract -/

/-- C3: on a strictly date-sorted price series, `LumpSumStrategy.execute`
    fails with `noDataForStartPeriod` exactly when no trading day falls in
    the configured start year/month; on success the ledger holds exactly one
    trade, dated the earliest trading day of that month, with amount
    `initial_capital` and shares `initial_capital / close`. -/
theorem lump_sum_single_trade_contract (cfg : LumpSumVsDcaConfig)
    (data : List PriceRow)
    (hs : List.Pairwise (fun a b => Date.lt a.date b.date) data) :
    (LumpSumStrategy.execute cfg data initState = .error .noDataForStartPeriod ↔
       ∀ r ∈ data, inYearMonth cfg.start_year cfg.start_month r = false) ∧
    ∀ r, (data.filter (inYearMonth cfg.start_year cfg.start_month)).head? = some r →
      (Except.map StrategyState.trades (LumpSumStrategy.execute cfg data initState) =
         .ok [{ date := r.date, price := r.close, amount := cfg.initial_capital,
                shares := cfg.initial_capital / r.close }] ∧
       r ∈ data ∧ inYearMonth cfg.start_year cfg.start_month r = true ∧
       ∀ q ∈ data, inYearMonth cfg.start_year cfg.start_month q = true →
         Date.le r.date q.date) := by
  constructor
  · cases hf : data.filter (inYearMonth cfg.start_year cfg.start_month) with
    | nil =>
        simp only [LumpSumStrategy.execute, hf]
        constructor
        · intro _ r hr
          have := (List.filter_eq_nil_iff.mp hf) r hr
          simpa using this
        · intro _; trivial
    | cons a rest =>
        simp only [LumpSumStrategy.execute, hf]
        constructor
        · intro hcontra; exact absurd hcontra (by simp)
        · intro hall
          have ha : a ∈ data.filter (inYearMonth cfg.start_year cfg.start_month) := by
            rw [hf]; exact List.mem_cons_self a rest
          have := List.mem_filter.mp ha
          have hfalse := hall a this.1
          rw [this.2] at hfalse
          exact absurd hfalse (by simp)
  · intro r hr
    have hmin := head_filter_min (inYearMonth cfg.start_year cfg.start_month) data hs r hr
    obtain ⟨rest, hrest⟩ : ∃ t,
        data.filter (inYearMonth cfg.start_year cfg.start_month) = r :: t := by
      cases hf : data.filter (inYearMonth cfg.start_year cfg.start_month) with
      | nil => rw [hf] at hr; simp at hr
      | cons x xs =>
          rw [hf] at hr
          simp only [List.head?_cons, Option.some.injEq] at hr
          exact ⟨xs, by rw [hr]⟩
    refine ⟨?_, hmin⟩
    simp only [LumpSumStrategy.execute, hrest, Except.map]
    rfl

/-- C3 witness: a concrete sorted two-day series; the start month holds a
    trading day so the run succeeds with the single expected trade. -/
theorem lump_sum_single_trade_contract_witness :
    (LumpSumStrategy.execute
        { initial_capital := 1000, start_year := 2020, start_month := 2,
          investment_period_years := 1, dca_months := 1 }
        [{ date := { year := 2020, month := 2, day := 3 }, close := 40 },
         { date := { year := 2020, month := 2, day := 4 }, close := 50 }]
        initState = .error .noDataForStartPeriod ↔
       ∀ r ∈ [{ date := { year := 2020, month := 2, day := 3 }, close := (40:ℚ) },
              { date := { year := 2020, month := 2, day := 4 }, close := 50 }],
         inYearMonth 2020 2 r = false) ∧
    ∀ r, ([{ date := { year := 2020, month := 2, day := 3 }, close := (40:ℚ) },
           { date := { year := 2020, month := 2, day := 4 }, close := 50 }].filter
             (inYearMonth 2020 2)).head? = some r →
      (Except.map StrategyState.trades
          (LumpSumStrategy.execute
            { initial_capital := 1000, start_year := 2020, start_month := 2,
              investment_period_years := 1, dca_months := 1 }
            [{ date := { year := 2020, month := 2, day := 3 }, close := 40 },
             { date := { year := 2020, month := 2, day := 4 }, close := 50 }]
            initState) =
         .ok [{ date := r.date, price := r.close, amount := 1000,
                shares := 1000 / r.close }] ∧
       r ∈ [{ date := { year := 2020, month := 2, day := 3 }, close := (40:ℚ) },
            { date := { year := 2020, month := 2, day := 4 }, close := 50 }] ∧
       inYearMonth 2020 2 r = true ∧
       ∀ q ∈ [{ date := { year := 2020, month := 2, day := 3 }, close := (40:ℚ) },
              { date := { year := 2020, month := 2, day := 4 }, close := 50 }],
         inYearMonth 2020 2 q = true → Date.le r.date q.date) :=
  lump_sum_single_trade_contract
    { initial_capital := 1000, start_year := 2020, start_month := 2,
      investment_period_years := 1, dca_months := 1 }
    [{ date := { year := 2020, month := 2, day := 3 }, close := 40 },
     { date := { year := 2020, month := 2, day := 4 }, close := 50 }]
    (by decide)

/-! ### C9 — determinism / explicit state -/

/-- C9: the only state a strategy retains is the explicit trade ledger —
    executing from any prior state merely prefixes that state's ledger, so a
    run from the freshly-constructed state (the factory builds a new
    strategy instance per run) is a pure function of the price series and
    the configuration, and two such runs produce identical ledgers. -/
theorem simulate_pure_state_decomposition (cfg : LumpSumVsDcaConfig)
    (data : List PriceRow) (st : StrategyState) :
    (DollarCostAverageStrategy.execute cfg data st).trades =
      st.trades ++ (DollarCostAverageStrategy.execute cfg data initState).trades ∧
    Except.map StrategyState.trades (LumpSumStrategy.execute cfg data st) =
      Except.map (fun s2 => st.trades ++ s2.trades)
        (LumpSumStrategy.execute cfg data initState) := by
  constructor
  · unfold DollarCostAverageStrategy.execute
    rw [dcaAux_trades, dcaAux_trades]
    simp [initState]
  · cases hf : data.filter (inYearMonth cfg.start_year cfg.start_month) with
    | nil => simp [LumpSumStrategy.execute, hf, Except.map]
    | cons r rest =>
        simp [LumpSumStrategy.execute, hf, Except.map, add_trade_trades, initState]

/-! ### C10 — tie-breaking of the winner label -/

/-- C10: in every comparison site (the probabilistic scenario runner, the
    per-metric comparison of `PerformanceAnalyzer.compare_strategies` for
    higher-is-better metrics such as returns, and
    `ComparisonAnalyzer.compare_strategies`), an exact tie of returns is
    labelled a DCA win; lump-sum wins only on a strictly greater value. -/
theorem winner_tie_goes_to_dca :
    ∀ r lsR dcaR : ℚ,
      scenarioWinner r r = Winner.dca ∧
      ComparisonAnalyzer.better_strategy r r = Winner.dca ∧
      PerformanceAnalyzer.better_strategy false r r = Winner.dca ∧
      (scenarioWinner lsR dcaR = Winner.lumpSum ↔ dcaR < lsR) := by
  intro r lsR dcaR
  refine ⟨?_, ?_, ?_, ?_⟩
  · simp [scenarioWinner]
  · simp [ComparisonAnalyzer.better_strategy]
  · simp [PerformanceAnalyzer.better_strategy]
  · unfold scenarioWinner
    split
    · simpa using ‹dcaR < lsR›
    · simpa using ‹¬ dcaR < lsR›

/-! ### C4 — DCA contract -/

/-- A `filterMap` keeps every element exactly when the function never
    returns `none`. -/
theorem filterMap_full_length_iff {α β : Type} (f : α → Option β) :
    ∀ l : List α, ((l.filterMap f).length = l.length ↔ ∀ a ∈ l, f a ≠ none) := by
  intro l
  induction l with
  | nil => simp
  | cons a t ih =>
      cases hfa : f a with
      | none =>
          simp only [List.filterMap_cons, hfa]
          constructor
          · intro hlen
            exact absurd hlen
              (Nat.ne_of_lt (Nat.lt_succ_of_le (List.length_filterMap_le f t)))
          · intro hall
            exact absurd hfa (hall a (List.mem_cons_self a t))
      | some b =>
          simp only [List.filterMap_cons, hfa, List.length_cons,
            Nat.succ.injEq, ih]
          constructor
          · intro hall q hq
            rcases List.mem_cons.mp hq with hq | hq
            · rw [hq, hfa]; simp
            · exact hall q hq
          · intro hall q hq
            exact hall q (List.mem_cons_of_mem a hq)

/-- Sum of the amounts of a ledger whose trades all carry the same amount. -/
theorem sum_amounts_const (c : ℚ) :
    ∀ l : List Trade, (∀ t ∈ l, t.amount = c) →
      ((l.map (fun t => t.amount)).sum = c * l.length) := by
  intro l
  induction l with
  | nil => simp
  | cons t rest ih =>
      intro hall
      have ht := hall t (List.mem_cons_self t rest)
      have hr := ih (fun q hq => hall q (List.mem_cons_of_mem t hq))
      simp only [List.map_cons, List.sum_cons, hr, ht, List.length_cons]
      push_cast
      ring

/-- `dcaTradeAt` fails exactly on the months with no trading day. -/
theorem dcaTradeAt_eq_none_iff (monthly : ℚ) (data : List PriceRow) (ym : ℕ × ℕ) :
    dcaTradeAt monthly data ym = none ↔ data.filter (inYearMonth ym.1 ym.2) = [] := by
  unfold dcaTradeAt
  cases hf : data.filter (inYearMonth ym.1 ym.2) <;> simp

/-- Every trade of the DCA ledger carries the fixed monthly amount and
    internally consistent shares. -/
theorem dcaLedger_trade_shape (cfg : LumpSumVsDcaConfig) (data : List PriceRow) :
    ∀ t ∈ dcaLedger cfg data,
      t.amount = cfg.get_dca_monthly_amount ∧ t.shares = t.amount / t.price := by
  intro t ht
  obtain ⟨i, _, hfi⟩ := List.mem_filterMap.mp ht
  unfold dcaTradeAt at hfi
  cases hf : data.filter
      (inYearMonth (ymAt cfg.start_year cfg.start_month i).1
        (ymAt cfg.start_year cfg.start_month i).2) with
  | nil => rw [hf] at hfi; simp at hfi
  | cons r rest =>
      rw [hf] at hfi
      simp only [Option.some.injEq] at hfi
      rw [← hfi]
      exact ⟨rfl, rfl⟩

/-- C4: the DCA run produces exactly the closed-form ledger — one trade of
    `totalCapital / dcaInstallments` at the first trading day of each target
    month that has one, skipped months silently dropped — with
    `shares = amount / price`, total invested at most `totalCapital`, and
    equality exactly when no installment was skipped. -/
theorem dca_installment_contract (cfg : LumpSumVsDcaConfig) (data : List PriceRow)
    (hs : List.Pairwise (fun a b => Date.lt a.date b.date) data)
    (hcap : 0 < cfg.initial_capital) (hn : 1 ≤ cfg.dca_months) :
    (DollarCostAverageStrategy.execute cfg data initState).trades =
      dcaLedger cfg data ∧
    (∀ t ∈ (DollarCostAverageStrategy.execute cfg data initState).trades,
      t.amount = cfg.get_dca_monthly_amount ∧ t.shares = t.amount / t.price) ∧
    (∀ i, i < cfg.dca_months → ∀ r,
      (data.filter (inYearMonth (ymAt cfg.start_year cfg.start_month i).1
         (ymAt cfg.start_year cfg.start_month i).2)).head? = some r →
      dcaTradeAt cfg.get_dca_monthly_amount data (ymAt cfg.start_year cfg.start_month i) =
        some { date := r.date, price := r.close,
               amount := cfg.get_dca_monthly_amount,
               shares := cfg.get_dca_monthly_amount / r.close } ∧
      ∀ q ∈ data, inYearMonth (ymAt cfg.start_year cfg.start_month i).1
          (ymAt cfg.start_year cfg.start_month i).2 q = true →
        Date.le r.date q.date) ∧
    ((((DollarCostAverageStrategy.execute cfg data initState).trades).map
        (fun t => t.amount)).sum ≤ cfg.initial_capital) ∧
    (((((DollarCostAverageStrategy.execute cfg data initState).trades).map
        (fun t => t.amount)).sum = cfg.initial_capital) ↔
      ∀ i, i < cfg.dca_months →
        data.filter (inYearMonth (ymAt cfg.start_year cfg.start_month i).1
          (ymAt cfg.start_year cfg.start_month i).2) ≠ []) := by
  have hledger : (DollarCostAverageStrategy.execute cfg data initState).trades =
      dcaLedger cfg data := by
    unfold DollarCostAverageStrategy.execute
    rw [dcaAux_trades]
    simp [initState, dcaLedger]
  have hnat : (0:ℚ) < (cfg.dca_months : ℚ) := by
    have : 0 < cfg.dca_months := hn
    exact_mod_cast this
  have hmon : 0 < cfg.get_dca_monthly_amount :=
    div_pos hcap hnat
  have hmul : cfg.get_dca_monthly_amount * (cfg.dca_months : ℚ) =
      cfg.initial_capital := by
    unfold LumpSumVsDcaConfig.get_dca_monthly_amount
    exact div_mul_cancel₀ cfg.initial_capital hnat.ne'
  have hsum : (((dcaLedger cfg data).map (fun t => t.amount)).sum =
      cfg.get_dca_monthly_amount * (dcaLedger cfg data).length) :=
    sum_amounts_const cfg.get_dca_monthly_amount (dcaLedger cfg data)
      (fun t ht => (dcaLedger_trade_shape cfg data t ht).1)
  have hlen : (dcaLedger cfg data).length ≤ cfg.dca_months := by
    have := List.length_filterMap_le
      (fun i => dcaTradeAt cfg.get_dca_monthly_amount data
        (ymAt cfg.start_year cfg.start_month i)) (List.range cfg.dca_months)
    simpa [dcaLedger] using this
  refine ⟨hledger, ?_, ?_, ?_, ?_⟩
  · rw [hledger]
    exact dcaLedger_trade_shape cfg data
  · intro i _ r hr
    obtain ⟨rest, hrest⟩ : ∃ t,
        data.filter (inYearMonth (ymAt cfg.start_year cfg.start_month i).1
          (ymAt cfg.start_year cfg.start_month i).2) = r :: t := by
      cases hf : data.filter (inYearMonth (ymAt cfg.start_year cfg.start_month i).1
          (ymAt cfg.start_year cfg.start_month i).2) with
      | nil => rw [hf] at hr; simp at hr
      | cons x xs =>
          rw [hf] at hr
          simp only [List.head?_cons, Option.some.injEq] at hr
          exact ⟨xs, by rw [hr]⟩
    constructor
    · unfold dcaTradeAt
      rw [hrest]
    · exact (head_filter_min _ data hs r (by rw [hrest]; rfl)).2.2
  · rw [hledger, hsum, ← hmul]
    have : ((dcaLedger cfg data).length : ℚ) ≤ (cfg.dca_months : ℚ) :=
      Nat.cast_le.mpr hlen
    exact mul_le_mul_of_nonneg_left this hmon.le
  · rw [hledger, hsum, ← hmul]
    constructor
    · intro heq i hi
      have hcancel : ((dcaLedger cfg data).length : ℚ) = (cfg.dca_months : ℚ) :=
        mul_left_cancel₀ hmon.ne' heq
      have hlene : (dcaLedger cfg data).length = cfg.dca_months :=
        Nat.cast_inj.mp hcancel
      have hfull := (filterMap_full_length_iff
        (fun j => dcaTradeAt cfg.get_dca_monthly_amount data
          (ymAt cfg.start_year cfg.start_month j)) (List.range cfg.dca_months)).mp
        (by simpa [dcaLedger] using hlene)
      have hi2 := hfull i (List.mem_range.mpr hi)
      intro hnil
      exact hi2 ((dcaTradeAt_eq_none_iff _ data _).mpr hnil)
    · intro hall
      have hfull : ∀ j ∈ List.range cfg.dca_months,
          dcaTradeAt cfg.get_dca_monthly_amount data
            (ymAt cfg.start_year cfg.start_month j) ≠ none := by
        intro j hj hnone
        exact hall j (List.mem_range.mp hj)
          ((dcaTradeAt_eq_none_iff _ data _).mp hnone)
      have hlene : (dcaLedger cfg data).length = cfg.dca_months := by
        have := (filterMap_full_length_iff
          (fun j => dcaTradeAt cfg.get_dca_monthly_amount data
            (ymAt cfg.start_year cfg.start_month j))
          (List.range cfg.dca_months)).mpr hfull
        simpa [dcaLedger] using this
      rw [hlene]

/-- Concrete configuration for the DCA contract witness: 100 capital over
    two monthly installments starting 2020-01. -/
def dcaDemoCfg : LumpSumVsDcaConfig :=
  { initial_capital := 100, start_year := 2020, start_month := 1,
    investment_period_years := 1, dca_months := 2 }

/-- Concrete sorted two-row price series with one trading day in each of the
    two target months. -/
def dcaDemoData : List PriceRow :=
  [{ date := { year := 2020, month := 1, day := 5 }, close := 10 },
   { date := { year := 2020, month := 2, day := 3 }, close := 25 }]

/-- C4 witness: the contract instantiated on the concrete two-installment
    run, with all hypotheses discharged by evaluation. -/
theorem dca_installment_contract_witness :
    (DollarCostAverageStrategy.execute dcaDemoCfg dcaDemoData initState).trades =
      dcaLedger dcaDemoCfg dcaDemoData ∧
    (∀ t ∈ (DollarCostAverageStrategy.execute dcaDemoCfg dcaDemoData initState).trades,
      t.amount = dcaDemoCfg.get_dca_monthly_amount ∧ t.shares = t.amount / t.price) ∧
    (∀ i, i < dcaDemoCfg.dca_months → ∀ r,
      (dcaDemoData.filter (inYearMonth (ymAt dcaDemoCfg.start_year dcaDemoCfg.start_month i).1
         (ymAt dcaDemoCfg.start_year dcaDemoCfg.start_month i).2)).head? = some r →
      dcaTradeAt dcaDemoCfg.get_dca_monthly_amount dcaDemoData
          (ymAt dcaDemoCfg.start_year dcaDemoCfg.start_month i) =
        some { date := r.date, price := r.close,
               amount := dcaDemoCfg.get_dca_monthly_amount,
               shares := dcaDemoCfg.get_dca_monthly_amount / r.close } ∧
      ∀ q ∈ dcaDemoData, inYearMonth (ymAt dcaDemoCfg.start_year dcaDemoCfg.start_month i).1
          (ymAt dcaDemoCfg.start_year dcaDemoCfg.start_month i).2 q = true →
        Date.le r.date q.date) ∧
    ((((DollarCostAverageStrategy.execute dcaDemoCfg dcaDemoData initState).trades).map
        (fun t => t.amount)).sum ≤ dcaDemoCfg.initial_capital) ∧
    (((((DollarCostAverageStrategy.execute dcaDemoCfg dcaDemoData initState).trades).map
        (fun t => t.amount)).sum = dcaDemoCfg.initial_capital) ↔
      ∀ i, i < dcaDemoCfg.dca_months →
        dcaDemoData.filter (inYearMonth (ymAt dcaDemoCfg.start_year dcaDemoCfg.start_month i).1
          (ymAt dcaDemoCfg.start_year dcaDemoCfg.start_month i).2) ≠ []) :=
  dca_installment_contract dcaDemoCfg dcaDemoData (by decide) (by decide) (by decide)

/-! ### C5 — CAGR guard -/

/-- C5 counterexample: with `total_invested = 0 ≤ 0` (and a positive day
    count) the CAGR computation still takes the formula branch — the guard
    tests only `years`, so the result is `fpow (final/0) (1/years) - 1`,
    which is not 0 (under IEEE floats the same input produces inf/NaN, and
    plain-float division would raise, likewise never 0). -/
theorem cagr_unguarded_invested_counterexample :
    ((0:ℚ) ≤ 0) ∧
      PerformanceAnalyzer.calculate_cagr fpowTwo 1 0 365 = 1 ∧
      ¬ PerformanceAnalyzer.calculate_cagr fpowTwo 1 0 365 = 0 := by
  have hy : (0:ℚ) < ((365:ℕ) : ℚ) / (1461 / 4) := by
    norm_num
  have hval : PerformanceAnalyzer.calculate_cagr fpowTwo 1 0 365 = 1 := by
    unfold PerformanceAnalyzer.calculate_cagr
    simp only [if_pos hy, fpowTwo]
    norm_num
  refine ⟨le_refl 0, hval, ?_⟩
  rw [hval]
  norm_num

/-- C5 amended: `cagr = fpow (finalValue / totalInvested) (1 / years) − 1`
    whenever `years > 0` (equivalently `days > 0`), regardless of the sign
    of `totalInvested`; `cagr = 0` only in the `years ≤ 0` branch (reachable
    solely at `days = 0`). -/
theorem cagr_guard_amended (fpow : ℚ → ℚ → ℚ) (fv ti : ℚ) (days : ℕ)
    (hd : 0 < days) :
    PerformanceAnalyzer.calculate_cagr fpow fv ti days =
      fpow (fv / ti) (1 / ((days : ℚ) / (1461 / 4))) - 1 ∧
    PerformanceAnalyzer.calculate_cagr fpow fv ti 0 = 0 := by
  constructor
  · unfold PerformanceAnalyzer.calculate_cagr
    have hy : (0:ℚ) < (days : ℚ) / (1461 / 4) := by
      apply div_pos
      · exact_mod_cast hd
      · norm_num
    rw [if_pos hy]
  · unfold PerformanceAnalyzer.calculate_cagr
    norm_num

/-- C5 amended witness: the amended statement instantiated at
    `days = 365`, `total_invested = 0`. -/
theorem cagr_guard_amended_witness :
    (0 < 365) ∧
      (PerformanceAnalyzer.calculate_cagr fpowTwo 1 0 365 =
        fpowTwo ((1:ℚ) / 0) (1 / ((365 : ℚ) / (1461 / 4))) - 1 ∧
      PerformanceAnalyzer.calculate_cagr fpowTwo 1 0 0 = 0) :=
  ⟨by decide, cagr_guard_amended fpowTwo 1 0 365 (by decide)⟩

/-! ### C7 — sweep gating and failure accounting -/

/-- Unfolding of the scenario loop: successes are collected in order and
    the failure counter counts exactly the windows shorter than 120 trading
    days. -/
theorem runAllScenariosAux_spec (data : List PriceRow) :
    ∀ scns : List (Date × Date),
      runAllScenariosAux data scns =
        (scns.filterMap (fun se =>
           (ProbabilisticBacktester.run_single_scenario data se.1 se.2).toOption),
         (scns.filter (fun se =>
           decide ((sliceScenario data se.1 se.2).length < 120))).length) := by
  intro scns
  induction scns with
  | nil => rfl
  | cons se rest ih =>
      simp only [runAllScenariosAux, ih, List.filterMap_cons, List.filter_cons]
      by_cases h : (sliceScenario data se.1 se.2).length < 120
      · have herr : ProbabilisticBacktester.run_single_scenario data se.1 se.2 =
            .error .insufficientData := by
          unfold ProbabilisticBacktester.run_single_scenario
          simp [h]
        rw [herr]
        simp [h, Except.toOption]
      · have hok : ProbabilisticBacktester.run_single_scenario data se.1 se.2 =
            .ok (sliceScenario data se.1 se.2) := by
          unfold ProbabilisticBacktester.run_single_scenario
          simp [h]
        rw [hok]
        simp [h, Except.toOption]

/-- C7 amended: in a sweep, exactly the candidate windows with fewer than a
    flat 120 trading days (independent of the horizon) are marked failed;
    they are excluded from the collected successes while every other
    scenario is still processed, and the failed count is surfaced alongside
    the successes, so successes plus failures exhaust the generated
    scenarios. -/
theorem sweep_failure_accounting (cfg : ScenarioConfig) (data : List PriceRow) :
    ProbabilisticBacktester.run_all_scenarios cfg data =
      ((ProbabilisticBacktester.generate_scenarios cfg).filterMap (fun se =>
         (ProbabilisticBacktester.run_single_scenario data se.1 se.2).toOption),
       ((ProbabilisticBacktester.generate_scenarios cfg).filter (fun se =>
         decide ((sliceScenario data se.1 se.2).length < 120))).length) ∧
    (ProbabilisticBacktester.run_all_scenarios cfg data).1.length +
        (ProbabilisticBacktester.run_all_scenarios cfg data).2 =
      (ProbabilisticBacktester.generate_scenarios cfg).length := by
  have hspec := runAllScenariosAux_spec data
    (ProbabilisticBacktester.generate_scenarios cfg)
  refine ⟨hspec, ?_⟩
  unfold ProbabilisticBacktester.run_all_scenarios
  generalize ProbabilisticBacktester.generate_scenarios cfg = scns
  induction scns with
  | nil => rfl
  | cons se rest ih =>
      simp only [runAllScenariosAux]
      cases hr : ProbabilisticBacktester.run_single_scenario data se.1 se.2 with
      | ok x =>
          simp only [List.length_cons]
          omega
      | error e =>
          simp only [List.length_cons]
          omega

/-- A synthetic series of 130 trading days early in a ten-year window. -/
def sweepDemoRows : List PriceRow :=
  (List.range 130).map (fun i =>
    { date := { year := 2000, month := 1 + i / 28, day := 1 + i % 28 },
      close := 100 })

set_option maxRecDepth 40000 in
/-- C7 counterexample: a ten-year candidate window holding only 130 trading
    days — far below the claimed floor of ~120 days per elapsed year
    (1200 for ten years) — is nonetheless accepted, because the code's
    threshold is a flat 120 trading days for the whole window. -/
theorem sweep_floor_counterexample :
    (sliceScenario sweepDemoRows { year := 2000, month := 1, day := 1 }
        { year := 2010, month := 1, day := 1 }).length = 130 ∧
    130 < 120 * 10 ∧
    (ProbabilisticBacktester.run_single_scenario sweepDemoRows
        { year := 2000, month := 1, day := 1 }
        { year := 2010, month := 1, day := 1 }).toOption.isSome = true := by
  refine ⟨?_, ?_, ?_⟩ <;> decide

/-! ### Valuation-engine lemmas (running peak and drawdown) -/

/-- The running-maximum fold underlying the pandas `cummax` step. -/
def peakFold (pk : ℚ) (l : List ValRow) : ℚ :=
  l.foldl (fun a v => max a v.total_return) pk

theorem le_peakFold : ∀ (l : List ValRow) (pk : ℚ), pk ≤ peakFold pk l := by
  intro l
  induction l with
  | nil => intro pk; exact le_refl pk
  | cons v vs ih =>
      intro pk
      exact le_trans (le_max_left pk v.total_return) (ih (max pk v.total_return))

theorem peakFold_eq_or_mem : ∀ (l : List ValRow) (pk : ℚ),
    peakFold pk l = pk ∨ ∃ v ∈ l, peakFold pk l = v.total_return := by
  intro l
  induction l with
  | nil => intro pk; exact Or.inl rfl
  | cons v vs ih =>
      intro pk
      rcases ih (max pk v.total_return) with h | ⟨w, hw, hweq⟩
      · rcases max_cases pk v.total_return with ⟨hm, _⟩ | ⟨hm, _⟩
        · exact Or.inl (by rw [peakFold] at h ⊢; simpa [hm] using h)
        · refine Or.inr ⟨v, List.mem_cons_self v vs, ?_⟩
          rw [peakFold] at h ⊢
          simpa [hm] using h
      · exact Or.inr ⟨w, List.mem_cons_of_mem v hw, hweq⟩

theorem mem_le_peakFold : ∀ (l : List ValRow) (pk : ℚ) (v : ValRow),
    v ∈ l → v.total_return ≤ peakFold pk l := by
  intro l
  induction l with
  | nil => intro pk v hv; simp at hv
  | cons w ws ih =>
      intro pk v hv
      have hstep : peakFold pk (w :: ws) = peakFold (max pk w.total_return) ws := rfl
      rcases List.mem_cons.mp hv with hv | hv
      · rw [hv, hstep]
        exact le_trans (le_max_right pk w.total_return)
          (le_peakFold ws (max pk w.total_return))
      · rw [hstep]
        exact ih (max pk w.total_return) v hv

theorem addDrawdownAux_length : ∀ (l : List ValRow) (pk : ℚ),
    (addDrawdownAux pk l).length = l.length := by
  intro l
  induction l with
  | nil => intro pk; rfl
  | cons v vs ih =>
      intro pk
      simp only [addDrawdownAux, List.length_cons, ih]

theorem addDrawdownAux_map_total : ∀ (l : List ValRow) (pk : ℚ),
    (addDrawdownAux pk l).map (fun r => r.total_return) =
      l.map (fun v => v.total_return) := by
  intro l
  induction l with
  | nil => intro pk; rfl
  | cons v vs ih =>
      intro pk
      simp only [addDrawdownAux, List.map_cons, ih]

/-- Index-wise description of the drawdown pass: each output row keeps its
    valuation fields, its peak is the running maximum of `total_return` over
    the prefix (seeded with the incoming peak), and its drawdown is the
    branch formula applied to its own return and peak. -/
theorem addDrawdownAux_get : ∀ (l : List ValRow) (pk : ℚ) (i : ℕ)
    (h : i < (addDrawdownAux pk l).length) (h2 : i < l.length),
    ((addDrawdownAux pk l).get ⟨i, h⟩).toValRow = l.get ⟨i, h2⟩ ∧
    ((addDrawdownAux pk l).get ⟨i, h⟩).peak_return = peakFold pk (l.take (i+1)) ∧
    ((addDrawdownAux pk l).get ⟨i, h⟩).drawdown =
      drawdownOf (((addDrawdownAux pk l).get ⟨i, h⟩).total_return)
        (((addDrawdownAux pk l).get ⟨i, h⟩).peak_return) := by
  intro l
  induction l with
  | nil =>
      intro pk i h h2
      simp at h2
  | cons v vs ih =>
      intro pk i h h2
      cases i with
      | zero =>
          refine ⟨rfl, ?_, rfl⟩
          simp only [addDrawdownAux, List.get, List.take_succ_cons,
            List.take_zero, peakFold, List.foldl_cons, List.foldl_nil]
      | succ j =>
          have hj : j < (addDrawdownAux (max pk v.total_return) vs).length := by
            simpa [addDrawdownAux] using h
          have hj2 : j < vs.length := by
            simpa using h2
          have := ih (max pk v.total_return) j hj hj2
          simp only [addDrawdownAux, List.get_cons_succ] at *
          refine ⟨this.1, ?_, this.2.2⟩
          rw [this.2.1]
          simp only [List.take_succ_cons, peakFold, List.foldl_cons]

/-- Every output row of the drawdown pass satisfies
    `total_return ≤ peak_return` and carries the branch-formula drawdown. -/
theorem addDrawdownAux_le_peak : ∀ (l : List ValRow) (pk : ℚ),
    ∀ rec ∈ addDrawdownAux pk l,
      rec.total_return ≤ rec.peak_return ∧
        rec.drawdown = drawdownOf rec.total_return rec.peak_return := by
  intro l
  induction l with
  | nil => intro pk rec hrec; simp [addDrawdownAux] at hrec
  | cons v vs ih =>
      intro pk rec hrec
      simp only [addDrawdownAux, List.mem_cons] at hrec
      rcases hrec with hrec | hrec
      · rw [hrec]
        exact ⟨le_max_right pk v.total_return, rfl⟩
      · exact ih (max pk v.total_return) rec hrec

theorem addDrawdownAux_chain : ∀ (l : List ValRow) (pk : ℚ),
    List.Chain' (fun a b : FullRow => a.peak_return ≤ b.peak_return)
      (addDrawdownAux pk l) := by
  intro l
  induction l with
  | nil => intro pk; simp [addDrawdownAux]
  | cons v vs ih =>
      intro pk
      simp only [addDrawdownAux]
      rw [List.chain'_cons']
      refine ⟨?_, ih (max pk v.total_return)⟩
      intro b hb
      cases vs with
      | nil => simp [addDrawdownAux] at hb
      | cons w ws =>
          simp only [addDrawdownAux, List.head?_cons, Option.mem_def,
            Option.some.injEq] at hb
          rw [← hb]
          exact le_max_left (max pk v.total_return) w.total_return

/-- The branch drawdown is never positive once the return is capped by the
    peak. -/
theorem drawdownOf_nonpos (tr pk : ℚ) (h : tr ≤ pk) : drawdownOf tr pk ≤ 0 := by
  unfold drawdownOf
  split
  · exact div_nonpos_of_nonpos_of_nonneg (sub_nonpos.mpr h) (by linarith)
  · exact sub_nonpos.mpr h

/-- Shared helper: every record of the valuation output has non-positive
    drawdown. -/
theorem valuation_dd_nonpos (cfg : LumpSumVsDcaConfig) (trades : List Trade)
    (data : List PriceRow) :
    ∀ rec ∈ calculate_daily_returns cfg trades data, rec.drawdown ≤ 0 := by
  unfold calculate_daily_returns
  cases hv : valuationRowsAux trades 0 0 (get_investment_period_data cfg data) with
  | nil => intro rec hrec; simp at hrec
  | cons v vs =>
      intro rec hrec
      have h := addDrawdownAux_le_peak (v :: vs) v.total_return rec hrec
      rw [h.2]
      exact drawdownOf_nonpos _ _ h.1

/-! ### C6 — drawdown sign and peak monotonicity -/

/-- C6: in every valuation-record sequence produced by
    `calculate_daily_returns` (for any trade ledger, hence for both
    strategies), every record has `drawdown ≤ 0`, and `peak_return` is
    non-decreasing along the sequence. -/
theorem valuation_invariants (cfg : LumpSumVsDcaConfig) (trades : List Trade)
    (data : List PriceRow) :
    (∀ rec ∈ calculate_daily_returns cfg trades data, rec.drawdown ≤ 0) ∧
    List.Chain' (fun a b : FullRow => a.peak_return ≤ b.peak_return)
      (calculate_daily_returns cfg trades data) := by
  refine ⟨valuation_dd_nonpos cfg trades data, ?_⟩
  unfold calculate_daily_returns
  cases hv : valuationRowsAux trades 0 0 (get_investment_period_data cfg data) with
  | nil => simp
  | cons v vs => exact addDrawdownAux_chain (v :: vs) v.total_return

/-! ### C1 — drawdown formula with running peak -/

/-- C1: in every valuation-record sequence produced by
    `calculate_daily_returns`, each record's `peak_return` is the running
    maximum of `total_return` over the records up to and including it
    (it is attained on that prefix and bounds it), and its `drawdown` is
    `(totalReturn − peakReturn) / (1 + peakReturn)` when `peakReturn > 0`
    and `totalReturn − peakReturn` otherwise. -/
theorem drawdown_formula_running_peak (cfg : LumpSumVsDcaConfig)
    (trades : List Trade) (data : List PriceRow) (i : ℕ)
    (h : i < (calculate_daily_returns cfg trades data).length) :
    ∀ rec, rec = (calculate_daily_returns cfg trades data).get ⟨i, h⟩ →
      rec.peak_return ∈
        (((calculate_daily_returns cfg trades data).take (i + 1)).map
          (fun r => r.total_return)) ∧
      (∀ x ∈ (((calculate_daily_returns cfg trades data).take (i + 1)).map
          (fun r => r.total_return)), x ≤ rec.peak_return) ∧
      rec.drawdown =
        (if 0 < rec.peak_return
         then (rec.total_return - rec.peak_return) / (1 + rec.peak_return)
         else rec.total_return - rec.peak_return) := by
  intro rec hrec
  cases hv : valuationRowsAux trades 0 0 (get_investment_period_data cfg data) with
  | nil =>
      exfalso
      have hnil : calculate_daily_returns cfg trades data = [] := by
        unfold calculate_daily_returns
        rw [hv]
      rw [hnil] at h
      simp at h
  | cons v vs =>
      have hout : calculate_daily_returns cfg trades data =
          addDrawdownAux v.total_return (v :: vs) := by
        unfold calculate_daily_returns
        rw [hv]
      have hlen : i < (addDrawdownAux v.total_return (v :: vs)).length := by
        rw [← hout]
        exact h
      have hget : (calculate_daily_returns cfg trades data).get ⟨i, h⟩ =
          (addDrawdownAux v.total_return (v :: vs)).get ⟨i, hlen⟩ := by
        exact List.get_of_eq hout ⟨i, h⟩
      have hrec2 : rec = (addDrawdownAux v.total_return (v :: vs)).get ⟨i, hlen⟩ :=
        hrec.trans hget
      have htake : ((calculate_daily_returns cfg trades data).take (i + 1)).map
            (fun r => r.total_return) =
          ((v :: vs).take (i + 1)).map (fun w => w.total_return) := by
        rw [hout, List.map_take, List.map_take, addDrawdownAux_map_total]
      have hlen2 : i < (v :: vs).length := by
        rw [← addDrawdownAux_length (v :: vs) v.total_return]
        exact hlen
      obtain ⟨hval, hpeak, hdd⟩ :=
        addDrawdownAux_get (v :: vs) v.total_return i hlen hlen2
      refine ⟨?_, ?_, ?_⟩
      · rw [hrec2, htake, hpeak]
        rcases peakFold_eq_or_mem ((v :: vs).take (i + 1)) v.total_return with
          hcase | ⟨w, hw, hweq⟩
        · rw [hcase]
          have hmemv : v ∈ (v :: vs).take (i + 1) := by
            rw [List.take_succ_cons]
            exact List.mem_cons_self v (vs.take i)
          exact List.mem_map_of_mem (fun w => w.total_return) hmemv
        · rw [hweq]
          exact List.mem_map_of_mem (fun w => w.total_return) hw
      · intro x hx
        rw [htake] at hx
        obtain ⟨w, hw, hweq⟩ := List.mem_map.mp hx
        rw [hrec2, hpeak, ← hweq]
        exact mem_le_peakFold ((v :: vs).take (i + 1)) v.total_return w hw
      · rw [hrec2, hdd]
        rfl

/-- Concrete two-day pipeline run for the C1 witness (one trade on the
    first day, price halving on the second). -/
def valDemoCfg : LumpSumVsDcaConfig :=
  { initial_capital := 100, start_year := 2020, start_month := 1,
    investment_period_years := 1, dca_months := 1 }

/-- Concrete trade ledger for the valuation witnesses. -/
def valDemoTrades : List Trade :=
  [{ date := { year := 2020, month := 1, day := 1 }, price := 100,
     amount := 100, shares := 1 }]

/-- Concrete price series for the valuation witnesses. -/
def valDemoData : List PriceRow :=
  [{ date := { year := 2020, month := 1, day := 1 }, close := 100 },
   { date := { year := 2020, month := 1, day := 2 }, close := 50 }]

/-- C1 witness: the formula instantiated at the second record of the
    concrete run. -/
theorem drawdown_formula_running_peak_witness :
    (1 < (calculate_daily_returns valDemoCfg valDemoTrades valDemoData).length) ∧
    ∀ rec, rec = (calculate_daily_returns valDemoCfg valDemoTrades
        valDemoData).get ⟨1, by decide⟩ →
      rec.peak_return ∈
        (((calculate_daily_returns valDemoCfg valDemoTrades valDemoData).take 2).map
          (fun r => r.total_return)) ∧
      (∀ x ∈ (((calculate_daily_returns valDemoCfg valDemoTrades
          valDemoData).take 2).map (fun r => r.total_return)),
        x ≤ rec.peak_return) ∧
      rec.drawdown =
        (if 0 < rec.peak_return
         then (rec.total_return - rec.peak_return) / (1 + rec.peak_return)
         else rec.total_return - rec.peak_return) :=
  ⟨by decide,
   drawdown_formula_running_peak valDemoCfg valDemoTrades valDemoData 1 (by decide)⟩

/-! ### C2 — MDD sign -/

theorem foldl_min_mem : ∀ (xs : List ℚ) (a : ℚ), xs.foldl min a ∈ a :: xs := by
  intro xs
  induction xs with
  | nil => intro a; simp
  | cons x t ih =>
      intro a
      have hstep : (x :: t).foldl min a = t.foldl min (min a x) := rfl
      rw [hstep]
      rcases List.mem_cons.mp (ih (min a x)) with h1 | h1
      · rcases min_cases a x with ⟨hm, _⟩ | ⟨hm, _⟩
        · rw [h1, hm]
          exact List.mem_cons_self a (x :: t)
        · rw [h1, hm]
          exact List.mem_cons_of_mem a (List.mem_cons_self x t)
      · exact List.mem_cons_of_mem a (List.mem_cons_of_mem x h1)

theorem listMin_mem : ∀ l : List ℚ, l ≠ [] → listMin l ∈ l := by
  intro l h
  cases l with
  | nil => exact absurd rfl h
  | cons x xs => exact foldl_min_mem xs x

/-- C2 counterexample: on the concrete two-day run the drawdown column is
    `[0, -1/2]`, so `min(drawdown) = -1/2`, yet the metrics calculator
    returns `abs(min) = 1/2` — not equal to `min(drawdown)` and not
    non-positive. -/
theorem mdd_sign_counterexample :
    calculate_daily_returns valDemoCfg valDemoTrades valDemoData ≠ [] ∧
    PerformanceAnalyzer.calculate_mdd
      (calculate_daily_returns valDemoCfg valDemoTrades valDemoData) = 1 / 2 ∧
    listMin ((calculate_daily_returns valDemoCfg valDemoTrades valDemoData).map
      (fun r => r.drawdown)) = -(1 / 2) ∧
    ¬ PerformanceAnalyzer.calculate_mdd
      (calculate_daily_returns valDemoCfg valDemoTrades valDemoData) ≤ 0 := by
  have hperiod : get_investment_period_data valDemoCfg valDemoData = valDemoData := by
    decide
  have hpass : valuationRowsAux valDemoTrades 0 0 valDemoData =
      [{ date := { year := 2020, month := 1, day := 1 }, price := 100,
         invested_amount := 100, shares := 1, average_price := 100,
         current_value := 100, total_return := 0, daily_return := 0 },
       { date := { year := 2020, month := 1, day := 2 }, price := 50,
         invested_amount := 100, shares := 1, average_price := 100,
         current_value := 50, total_return := -(1 / 2), daily_return := -(1 / 2) }] := by
    norm_num [valuationRowsAux, tradeOn, valDemoTrades, valDemoData]
  have hout : calculate_daily_returns valDemoCfg valDemoTrades valDemoData =
      [{ date := { year := 2020, month := 1, day := 1 }, price := 100,
         invested_amount := 100, shares := 1, average_price := 100,
         current_value := 100, total_return := 0, daily_return := 0,
         peak_return := 0, drawdown := 0 },
       { date := { year := 2020, month := 1, day := 2 }, price := 50,
         invested_amount := 100, shares := 1, average_price := 100,
         current_value := 50, total_return := -(1 / 2), daily_return := -(1 / 2),
         peak_return := 0, drawdown := -(1 / 2) }] := by
    unfold calculate_daily_returns
    rw [hperiod, hpass]
    norm_num [addDrawdownAux, drawdownOf]
  rw [hout]
  refine ⟨by simp, ?_, ?_, ?_⟩
  · norm_num [PerformanceAnalyzer.calculate_mdd, listMin]
  · norm_num [listMin]
  · norm_num [PerformanceAnalyzer.calculate_mdd, listMin]

/-- C2 amended: on every non-empty valuation output the metrics calculator
    returns the absolute value of `min(drawdown)` — equivalently
    `-(min(drawdown))`, since drawdowns are non-positive — and the result is
    therefore non-negative (the rolling batch script, by contrast, stores
    `min(drawdown)` itself). -/
theorem mdd_is_abs_min_drawdown (cfg : LumpSumVsDcaConfig)
    (trades : List Trade) (data : List PriceRow)
    (h : calculate_daily_returns cfg trades data ≠ []) :
    PerformanceAnalyzer.calculate_mdd (calculate_daily_returns cfg trades data) =
      -(listMin ((calculate_daily_returns cfg trades data).map
        (fun r => r.drawdown))) ∧
    0 ≤ PerformanceAnalyzer.calculate_mdd
      (calculate_daily_returns cfg trades data) := by
  have hmapne : (calculate_daily_returns cfg trades data).map
      (fun r => r.drawdown) ≠ [] := by
    simpa using h
  have hmem := listMin_mem _ hmapne
  obtain ⟨rec, hrec, heq⟩ := List.mem_map.mp hmem
  have hd : listMin ((calculate_daily_returns cfg trades data).map
      (fun r => r.drawdown)) ≤ 0 := by
    rw [← heq]
    exact valuation_dd_nonpos cfg trades data rec hrec
  have habs : PerformanceAnalyzer.calculate_mdd
      (calculate_daily_returns cfg trades data) =
      |listMin ((calculate_daily_returns cfg trades data).map
        (fun r => r.drawdown))| := by
    cases hout : calculate_daily_returns cfg trades data with
    | nil => exact absurd hout h
    | cons a t => rfl
  constructor
  · rw [habs, abs_of_nonpos hd]
  · rw [habs]
    exact abs_nonneg _

/-- C2 amended witness: the amended statement instantiated on the concrete
    two-day run (mdd = 1/2 = −(−1/2)). -/
theorem mdd_is_abs_min_drawdown_witness :
    PerformanceAnalyzer.calculate_mdd
        (calculate_daily_returns valDemoCfg valDemoTrades valDemoData) =
      -(listMin ((calculate_daily_returns valDemoCfg valDemoTrades
          valDemoData).map (fun r => r.drawdown))) ∧
    0 ≤ PerformanceAnalyzer.calculate_mdd
        (calculate_daily_returns valDemoCfg valDemoTrades valDemoData) :=
  mdd_is_abs_min_drawdown valDemoCfg valDemoTrades valDemoData (by decide)

/-! ### C8 — volatility and Sharpe formulas -/

theorem diffs_length : ∀ l : List ℚ, (diffs l).length = l.length - 1 := by
  intro l
  induction l with
  | nil => rfl
  | cons x t ih =>
      cases t with
      | nil => rfl
      | cons y s =>
          simp only [diffs, List.length_cons] at ih ⊢
          omega

/-- C8: for at least two records, the daily portfolio return series is the
    first difference of `total_return`; volatility is
    `std(daily) * sqrt(365.25)`; when volatility is zero the Sharpe ratio is
    zero; and otherwise Sharpe is
    `(mean(daily) * 365.25 − 0.02) / volatility`.  `sqrtQ` abstracts the
    square root (pandas `.std` / `np.sqrt`) and is only assumed to be
    positive on positive inputs.  (With exactly two records the single-entry
    diff series has an undefined sample deviation — IEEE NaN in pandas; the
    rational model treats that 0/0 as 0, which lands in the guarded
    `sharpe = 0` branch.) -/
theorem sharpe_volatility_formulas (sqrtQ : ℚ → ℚ)
    (hs : ∀ x : ℚ, 0 < x → 0 < sqrtQ x)
    (recs : List FullRow) (hlen : 2 ≤ recs.length) :
    PerformanceAnalyzer.calculate_volatility sqrtQ recs =
      sqrtQ (sampleVar (diffs (recs.map (fun r => r.total_return)))) *
        sqrtQ (1461 / 4) ∧
    (PerformanceAnalyzer.calculate_volatility sqrtQ recs = 0 →
      PerformanceAnalyzer.calculate_sharpe sqrtQ recs = 0) ∧
    (PerformanceAnalyzer.calculate_volatility sqrtQ recs ≠ 0 →
      PerformanceAnalyzer.calculate_sharpe sqrtQ recs =
        (listMean (diffs (recs.map (fun r => r.total_return))) * (1461 / 4) -
            1 / 50) /
          PerformanceAnalyzer.calculate_volatility sqrtQ recs) := by
  have hlt : ¬ recs.length < 2 := not_lt.mpr hlen
  have hdne : diffs (recs.map (fun r => r.total_return)) ≠ [] := by
    intro hnil
    have hl := diffs_length (recs.map (fun r => r.total_return))
    rw [hnil] at hl
    simp only [List.length_nil, List.length_map] at hl
    omega
  have hvol : PerformanceAnalyzer.calculate_volatility sqrtQ recs =
      sqrtQ (sampleVar (diffs (recs.map (fun r => r.total_return)))) *
        sqrtQ (1461 / 4) := by
    simp only [PerformanceAnalyzer.calculate_volatility]
    rw [if_neg hlt, if_neg hdne]
  have hsqrt365 : 0 < sqrtQ (1461 / 4) := hs _ (by norm_num)
  refine ⟨hvol, ?_, ?_⟩
  · intro h0
    rw [hvol] at h0
    rcases mul_eq_zero.mp h0 with h1 | h1
    · simp only [PerformanceAnalyzer.calculate_sharpe]
      rw [if_neg hlt, if_pos (Or.inr h1)]
    · exact absurd h1 hsqrt365.ne'
  · intro hne
    have h1 : sqrtQ (sampleVar (diffs (recs.map (fun r => r.total_return)))) ≠ 0 := by
      intro h0
      apply hne
      rw [hvol, h0, zero_mul]
    simp only [PerformanceAnalyzer.calculate_sharpe]
    rw [if_neg hlt, if_neg (not_or.mpr ⟨hdne, h1⟩), hvol]

/-- A concrete square-root stand-in that is positive on positive inputs. -/
def sqrtDemo : ℚ → ℚ := fun x => if 0 < x then 1 else 0

/-- Three concrete valuation records with returns 0, 1/2, 0 for the C8
    witness. -/
def sharpeDemoRecs : List FullRow :=
  [{ date := { year := 2020, month := 1, day := 1 }, price := 0,
     invested_amount := 0, shares := 0, average_price := 0, current_value := 0,
     total_return := 0, daily_return := 0, peak_return := 0, drawdown := 0 },
   { date := { year := 2020, month := 1, day := 2 }, price := 0,
     invested_amount := 0, shares := 0, average_price := 0, current_value := 0,
     total_return := 1 / 2, daily_return := 0, peak_return := 0, drawdown := 0 },
   { date := { year := 2020, month := 1, day := 3 }, price := 0,
     invested_amount := 0, shares := 0, average_price := 0, current_value := 0,
     total_return := 0, daily_return := 0, peak_return := 0, drawdown := 0 }]

/-- C8 witness: the formulas instantiated on a concrete three-record
    sequence and a concrete admissible square-root stand-in. -/
theorem sharpe_volatility_formulas_witness :
    (∀ x : ℚ, 0 < x → 0 < sqrtDemo x) ∧ 2 ≤ sharpeDemoRecs.length ∧
    (PerformanceAnalyzer.calculate_volatility sqrtDemo sharpeDemoRecs =
      sqrtDemo (sampleVar (diffs (sharpeDemoRecs.map (fun r => r.total_return)))) *
        sqrtDemo (1461 / 4) ∧
    (PerformanceAnalyzer.calculate_volatility sqrtDemo sharpeDemoRecs = 0 →
      PerformanceAnalyzer.calculate_sharpe sqrtDemo sharpeDemoRecs = 0) ∧
    (PerformanceAnalyzer.calculate_volatility sqrtDemo sharpeDemoRecs ≠ 0 →
      PerformanceAnalyzer.calculate_sharpe sqrtDemo sharpeDemoRecs =
        (listMean (diffs (sharpeDemoRecs.map (fun r => r.total_return))) *
            (1461 / 4) - 1 / 50) /
          PerformanceAnalyzer.calculate_volatility sqrtDemo sharpeDemoRecs)) :=
  ⟨fun x hx => by rw [sqrtDemo, if_pos hx]; norm_num,
   by decide,
   sharpe_volatility_formulas sqrtDemo
     (fun x hx => by rw [sqrtDemo, if_pos hx]; norm_num)
     sharpeDemoRecs (by decide)⟩
